import Mathlib

/-!
Verification of the surface-code memory simulator (group_1_proj/surface.py).

The Python program builds a distance-d surface-code lattice, emits stabilizer
measurement rounds as a qiskit circuit, injects single-qubit faults, and
decodes the accumulated syndrome registers into one logical bit.  This file
gives a shallow embedding of the algorithmic core (lattice construction,
face enumeration, stabilizer circuit emission, the decoder, the error
injectors) and proves the specified properties about it.
-/

namespace Surface

/-- Gate alphabet of the circuits emitted by surface.py.  Qubits are
identified by natural numbers (indices into their registers). -/
inductive Gate where
  | h (q : Nat)
  | cx (control target : Nat)
  | x (q : Nat)
  | z (q : Nat)
  | unitary (q : Nat)
  deriving DecidableEq, Repr

/-- Model of circ.cx with possibly-absent (None) operands: qiskit rejects a
missing operand, so the call fails unless both operands are present. -/
def cxST (c t : Option Nat) : Except String Gate :=
  match c, t with
  | some c, some t => Except.ok (Gate.cx c t)
  | _, _ => Except.error "CircuitError"

/-- Translation of xxxx (surface.py lines 46-54): stabilizer circuit of a
2- or 4-qubit X-face.  The four slots hold the participant data-qubit
indices, or are absent (Python None).  As in the source, only slots 0 and 2
are tested for truthiness; slots 1 and 3 are then used unconditionally. -/
def xxxx (s : Nat) (e0 e1 e2 e3 : Option Nat) : Except String (List Gate) := do
  let b1 ←
    if e0.isSome then do
      let g0 ← cxST (some s) e0
      let g1 ← cxST (some s) e1
      pure [g0, g1]
    else pure []
  let b2 ←
    if e2.isSome then do
      let g2 ← cxST (some s) e2
      let g3 ← cxST (some s) e3
      pure [g2, g3]
    else pure []
  pure ([Gate.h s] ++ b1 ++ b2 ++ [Gate.h s])

/-- Translation of zzzz (surface.py lines 57-63): stabilizer circuit of a
2- or 4-qubit Z-face.  Slots 0 and 1 are tested; their partners are the
slots 2 and 3 respectively. -/
def zzzz (s : Nat) (e0 e1 e2 e3 : Option Nat) : Except String (List Gate) := do
  let b1 ←
    if e0.isSome then do
      let g0 ← cxST e0 (some s)
      let g2 ← cxST e2 (some s)
      pure [g0, g2]
    else pure []
  let b2 ←
    if e1.isSome then do
      let g1 ← cxST e1 (some s)
      let g3 ← cxST e3 (some s)
      pure [g1, g3]
    else pure []
  pure (b1 ++ b2)

/-- State recorded by SurfaceQubit.__init__ (surface.py lines 74-82):
register sizes and the round counter. -/
structure SurfaceState where
  roundN : Nat
  dist : Int
  dataCount : Nat
  syndromeCount : Nat
  ancillaCount : Nat
  measurementCount : Nat
  deriving DecidableEq, Repr

/-- Translation of SurfaceQubit.__init__ (surface.py lines 74-82).  The
guard is Python assert d % 2 == 1; Python % with positive modulus agrees
with Int.emod, so negative odd d passes the assert.  On success the
registers hold d^2 data qubits, d^2-1 syndrome qubits, one ancilla and a
1-bit measurement register, and the round counter starts at 0. -/
def surfaceInit (d : Int) : Option SurfaceState :=
  if d % 2 = 1 then
    some { roundN := 0, dist := d, dataCount := (d ^ 2).toNat,
           syndromeCount := (d ^ 2 - 1).toNat, ancillaCount := 1,
           measurementCount := 1 }
  else none

/-- Type of a stabilizer face: X-face (measured via xxxx) or Z-face
(measured via zzzz). -/
inductive FaceType where
  | X
  | Z
  deriving DecidableEq, Repr

/-- One stabilizer face as enumerated by SurfaceQubit.stabilize: its type,
the position of the syndrome qubit consumed from the syndrome register
(the faces consume the register iterator sequentially), and the four
participant slots passed to xxxx or zzzz. -/
structure Face where
  ftype : FaceType
  syndromeIdx : Nat
  e0 : Option Nat
  e1 : Option Nat
  e2 : Option Nat
  e3 : Option Nat
  deriving DecidableEq, Repr

/-- Interior face of the (d-1) x (d-1) grid (surface.py lines 90-101):
corners ul = i*d+j, ur = ul+1, ll = ul+d, lr = ll+1; the syndrome iterator
has already served i*(d-1)+j faces; chessboard test (i+j) % 2 == 0 picks
zzzz (Z-type), otherwise xxxx (X-type). -/
def interiorFace (d i j : Nat) : Face :=
  { ftype := if (i + j) % 2 = 0 then FaceType.Z else FaceType.X
    syndromeIdx := i * (d - 1) + j
    e0 := some (i * d + j)
    e1 := some (i * d + j + 1)
    e2 := some (i * d + j + d)
    e3 := some (i * d + j + d + 1) }

/-- The interior faces in emission order (outer loop i, inner loop j). -/
def interiorFaces (d : Nat) : List Face :=
  (List.range (d - 1)).flatMap fun i =>
    (List.range (d - 1)).map fun j => interiorFace d i j

/-- Upper-edge boundary face of loop iteration i (surface.py lines 104-107):
xxxx with slots [None, None, ll, lr], ll = 2*i, lr = ll+1.  Boundary faces
are emitted after the (d-1)^2 interior faces, four per loop iteration. -/
def topFace (d i : Nat) : Face :=
  { ftype := FaceType.X, syndromeIdx := (d - 1) ^ 2 + 4 * i
    e0 := none, e1 := none, e2 := some (2 * i), e3 := some (2 * i + 1) }

/-- Right-edge boundary face of loop iteration i (surface.py lines 109-112):
zzzz with slots [ul, None, ll, None], ul = 2*i*d + d - 1, ll = ul + d. -/
def rightFace (d i : Nat) : Face :=
  { ftype := FaceType.Z, syndromeIdx := (d - 1) ^ 2 + 4 * i + 1
    e0 := some (2 * i * d + d - 1), e1 := none
    e2 := some (2 * i * d + d - 1 + d), e3 := none }

/-- Lower-edge boundary face of loop iteration i (surface.py lines 114-117):
xxxx with slots [ul, ur, None, None], ur = d^2 - 1 - i, ul = ur - 1. -/
def bottomFace (d i : Nat) : Face :=
  { ftype := FaceType.X, syndromeIdx := (d - 1) ^ 2 + 4 * i + 2
    e0 := some (d ^ 2 - 1 - i - 1), e1 := some (d ^ 2 - 1 - i)
    e2 := none, e3 := none }

/-- Left-edge boundary face of loop iteration i (surface.py lines 119-122):
zzzz with slots [None, ur, None, lr], ur = 2*i*d + d, lr = ur + d. -/
def leftFace (d i : Nat) : Face :=
  { ftype := FaceType.Z, syndromeIdx := (d - 1) ^ 2 + 4 * i + 3
    e0 := none, e1 := some (2 * i * d + d)
    e2 := none, e3 := some (2 * i * d + d + d) }

/-- The boundary faces in emission order: for each loop iteration
i < d / 2, the upper, right, lower and left faces, in that order. -/
def boundaryFaces (d : Nat) : List Face :=
  (List.range (d / 2)).flatMap fun i =>
    [topFace d i, rightFace d i, bottomFace d i, leftFace d i]

/-- All faces of one stabilization round (surface.py lines 84-122), in the
order they consume syndrome qubits. -/
def stabilizeFaces (d : Nat) : List Face :=
  interiorFaces d ++ boundaryFaces d

/-- Translation of SurfaceQubit.get_flips (surface.py lines 138-150).
Python range(0, d-1, 2) has (d - 1 + 1) / 2 terms (ceiling division); the
summand u and not (ll or lr) contributes 1 to the Python sum exactly when
the up mask is nonzero and the other two masks are zero. -/
def get_flips (d syndrome : Nat) : Nat :=
  let indices := List.range' 0 ((d - 1 + 1) / 2) 2
  let indices_lr := indices.map fun i => i + d
  let indices_ll := indices.map fun i => if i ≠ 0 then i + d - 2 else (d - 1) ^ 2 + 3
  let parity_up := indices.map fun i => syndrome &&& (1 <<< i)
  let parity_lr := indices_lr.map fun i => syndrome &&& (1 <<< i)
  let parity_ll := indices_ll.map fun i => syndrome &&& (1 <<< i)
  let flips :=
    (List.zipWith3 (fun u lr ll => if u ≠ 0 ∧ ¬(ll ≠ 0 ∨ lr ≠ 0) then 1 else 0)
      parity_up parity_lr parity_ll).sum
  if syndrome &&& (1 <<< ((d - 1) ^ 2 + 1)) ≠ 0 ∧
      syndrome &&& (1 <<< (2 * d - 3)) = 0 then
    flips + 1
  else flips

/-- Python list indexing result[i] for a nonnegative index: raises
IndexError when out of range. -/
def pyGet (l : List Nat) (i : Nat) : Except String Nat :=
  match l[i]? with
  | some v => Except.ok v
  | none => Except.error "IndexError"

/-- Python result[-1]: the last element, raising IndexError on an empty
list. -/
def pyLast (l : List Nat) : Except String Nat :=
  match l.getLast? with
  | some v => Except.ok v
  | none => Except.error "IndexError"

/-- Translation of the decoding tail of SurfaceQubit.measure_z (surface.py
lines 159-164), as a function of the distance, the round counter, and the
measurement outcome vector returned by exec (one integer per classical
register, the 1-bit ancilla readout last). -/
def measure_z_decode (d roundN : Nat) (result : List Nat) : Except String Nat := do
  let syndromes ← (List.range (roundN - 1)).mapM fun i => do
    let a ← pyGet result i
    let b ← pyGet result (i + 1)
    pure (a ^^^ b)
  let syndrome := syndromes.foldl (fun x y => x ^^^ y) 0
  let last ← pyLast result
  pure ((get_flips d syndrome + last) % 2)

/-- Model of q = self.data[i] if i > -1 else random.choice(self.data)
(surface.py lines 166-178): i is the Python int argument, choice the index
drawn by random.choice, uniform over the dsq = d^2 data qubits.  An
explicit nonnegative index out of range raises (qiskit register indexing);
negative indices never reach the register. -/
def dataIndex (dsq : Nat) (i : Int) (choice : Nat) : Except String Nat :=
  if i > -1 then
    if i.toNat < dsq then Except.ok i.toNat else Except.error "CircuitError"
  else Except.ok choice

/-- Translation of SurfaceQubit.single_bitflip (surface.py lines 166-168):
appends one Pauli-X gate on the selected data qubit. -/
def single_bitflip (dsq : Nat) (i : Int) (choice : Nat) : Except String (List Gate) :=
  match dataIndex dsq i choice with
  | Except.ok q => Except.ok [Gate.x q]
  | Except.error e => Except.error e

/-- Translation of SurfaceQubit.single_phaseflip (surface.py lines 170-172):
appends one Pauli-Z gate on the selected data qubit. -/
def single_phaseflip (dsq : Nat) (i : Int) (choice : Nat) : Except String (List Gate) :=
  match dataIndex dsq i choice with
  | Except.ok q => Except.ok [Gate.z q]
  | Except.error e => Except.error e

/-- Translation of SurfaceQubit.single_err (surface.py lines 174-178):
appends one random-unitary gate on the selected data qubit. -/
def single_err (dsq : Nat) (i : Int) (choice : Nat) : Except String (List Gate) :=
  match dataIndex dsq i choice with
  | Except.ok q => Except.ok [Gate.unitary q]
  | Except.error e => Except.error e

/-- Slot pattern of an upper-edge boundary face: upper pair absent, both
lower slots present. -/
def onTopEdge (f : Face) : Bool :=
  f.e0.isNone && f.e1.isNone && f.e2.isSome && f.e3.isSome

/-- Slot pattern of a right-edge boundary face: slots 0 and 2 present. -/
def onRightEdge (f : Face) : Bool :=
  f.e0.isSome && f.e1.isNone && f.e2.isSome && f.e3.isNone

/-- Slot pattern of a lower-edge boundary face: upper pair present, lower
pair absent. -/
def onBottomEdge (f : Face) : Bool :=
  f.e0.isSome && f.e1.isSome && f.e2.isNone && f.e3.isNone

/-- Slot pattern of a left-edge boundary face: slots 1 and 3 present. -/
def onLeftEdge (f : Face) : Bool :=
  f.e0.isNone && f.e1.isSome && f.e2.isNone && f.e3.isSome

/-- Spec-side restatement (claim C1) of the decoded flip count: the number
of positions p in the set of even numbers 0, 2, ..., d-3 whose bit is set
in s while both the lower-right bit p+d and the lower-left bit (p+d-2 for
p > 0, (d-1)^2+3 for p = 0) are clear, plus one extra flip exactly when bit
(d-1)^2+1 is set and bit 2d-3 is clear. -/
def flipsFromSpec (d s : Nat) : Nat :=
  ((List.range ((d - 1) / 2)).map fun k => 2 * k).countP
    (fun p => s.testBit p && !s.testBit (p + d) &&
      !s.testBit (if p = 0 then (d - 1) ^ 2 + 3 else p + d - 2))
  + (if s.testBit ((d - 1) ^ 2 + 1) = true ∧ s.testBit (2 * d - 3) = false then 1 else 0)

/-- C6: the emitted stabilizer circuit matches the face type.  An X-type
face gets a Hadamard, one CNOT per present participant with the syndrome
qubit as control, and a closing Hadamard; a Z-type face gets one CNOT per
present participant with the data qubit as control and no Hadamard; the
slot patterns are exactly the three X-face shapes and three Z-face shapes
produced by stabilize, and absent slots are never touched. -/
theorem xxxx_zzzz_circuit_shapes (s a b c e : Nat) :
    xxxx s (some a) (some b) (some c) (some e) =
      Except.ok [Gate.h s, Gate.cx s a, Gate.cx s b, Gate.cx s c, Gate.cx s e, Gate.h s] ∧
    xxxx s none none (some c) (some e) =
      Except.ok [Gate.h s, Gate.cx s c, Gate.cx s e, Gate.h s] ∧
    xxxx s (some a) (some b) none none =
      Except.ok [Gate.h s, Gate.cx s a, Gate.cx s b, Gate.h s] ∧
    zzzz s (some a) (some b) (some c) (some e) =
      Except.ok [Gate.cx a s, Gate.cx c s, Gate.cx b s, Gate.cx e s] ∧
    zzzz s (some a) none (some c) none =
      Except.ok [Gate.cx a s, Gate.cx c s] ∧
    zzzz s none (some b) none (some e) =
      Except.ok [Gate.cx b s, Gate.cx e s] ∧
    (∀ q, Gate.h q ∉ [Gate.cx a s, Gate.cx c s, Gate.cx b s, Gate.cx e s]) := by
  refine ⟨rfl, rfl, rfl, rfl, rfl, rfl, ?_⟩
  intro q
  simp

/-- C8 counterexample: d = -3 is non-positive (and odd), yet lattice
construction succeeds, because Python evaluates (-3) % 2 to 1 and the
assert passes. -/
theorem surfaceInit_neg_three_succeeds :
    (surfaceInit (-3)).isSome = true ∧ (-3 : Int) ≤ 0 := by
  constructor
  · decide
  · decide

/-- C8 (amended): lattice construction fails exactly when d is even
(Python mod semantics make the assert pass for every odd d, negative ones
included); on success it records d^2 data slots, d^2-1 syndrome slots, one
ancilla, a 1-bit measurement register and round counter 0. -/
theorem surfaceInit_spec (d : Int) :
    ((surfaceInit d).isSome ↔ Odd d) ∧
    (∀ st, surfaceInit d = some st →
      st.dataCount = (d ^ 2).toNat ∧ st.syndromeCount = (d ^ 2 - 1).toNat ∧
      st.ancillaCount = 1 ∧ st.measurementCount = 1 ∧ st.roundN = 0) := by
  constructor
  · rw [Int.odd_iff]
    unfold surfaceInit
    by_cases h : d % 2 = 1 <;> simp [h]
  · intro st hst
    unfold surfaceInit at hst
    by_cases h : d % 2 = 1 <;> simp [h] at hst
    subst hst
    refine ⟨rfl, ?_, rfl, rfl, rfl⟩
    show ((d : Int) ^ 2).toNat - 1 = ((d : Int) ^ 2 - 1).toNat
    have h2 : (0 : Int) ≤ d ^ 2 := sq_nonneg d
    generalize d ^ 2 = m at h2 ⊢
    omega

/-- Witness for surfaceInit_spec at d = 3. -/
theorem surfaceInit_spec_witness : (surfaceInit 3).isSome :=
  (surfaceInit_spec 3).1.mpr ⟨1, by norm_num⟩

/-- C10: in all three error injectors, any strictly negative index selects
the externally drawn random qubit (uniform over the d^2 data qubits,
modelled by the drawn index choice), negative indexing is never applied to
the data register, and every in-range index 0 <= i < d^2 appends exactly
one gate on data qubit i. -/
theorem error_injection_target (dsq : Nat) (i : Int) (choice : Nat)
    (_hchoice : choice < dsq) :
    (i < 0 →
      single_bitflip dsq i choice = Except.ok [Gate.x choice] ∧
      single_phaseflip dsq i choice = Except.ok [Gate.z choice] ∧
      single_err dsq i choice = Except.ok [Gate.unitary choice]) ∧
    (0 ≤ i → i < (dsq : Int) →
      single_bitflip dsq i choice = Except.ok [Gate.x i.toNat] ∧
      single_phaseflip dsq i choice = Except.ok [Gate.z i.toNat] ∧
      single_err dsq i choice = Except.ok [Gate.unitary i.toNat]) := by
  constructor
  · intro hi
    have hni : ¬(i > -1) := by omega
    simp [single_bitflip, single_phaseflip, single_err, dataIndex, hni]
  · intro h0 hlt
    have hgt : i > -1 := by omega
    have htn : i.toNat < dsq := by omega
    simp [single_bitflip, single_phaseflip, single_err, dataIndex, hgt, htn]

/-- Witness for error_injection_target: a negative index on a d = 3
lattice targets the drawn qubit, an explicit index 4 targets qubit 4. -/
theorem error_injection_target_witness :
    single_bitflip 9 (-2) 5 = Except.ok [Gate.x 5] ∧
    single_bitflip 9 4 5 = Except.ok [Gate.x (4 : Int).toNat] :=
  ⟨((error_injection_target 9 (-2) 5 (by decide)).1 (by decide)).1,
   ((error_injection_target 9 4 5 (by decide)).2 (by decide) (by decide)).1⟩

/-- Auxiliary: flattening n blocks of m consecutive indices, block i
starting at c + i * m, gives the c-shifted range of n * m indices. -/
theorem flatMap_range_block (m c : Nat) :
    ∀ n, ((List.range n).flatMap fun i => (List.range m).map fun j => c + i * m + j) =
      (List.range (n * m)).map (c + ·)
  | 0 => by simp
  | n + 1 => by
    rw [List.range_succ, List.flatMap_append, flatMap_range_block m c n,
      List.flatMap_singleton]
    have hnm : (n + 1) * m = n * m + m := by ring
    rw [hnm, List.range_add, List.map_append, List.map_map]
    have hfun : ((fun x => c + x) ∘ fun x => n * m + x) = fun j => c + n * m + j := by
      funext j
      show c + (n * m + j) = c + n * m + j
      omega
    rw [hfun]

/-- Auxiliary: the syndrome positions of the interior faces are exactly
the first (d-1)*(d-1) positions, in order. -/
theorem interiorFaces_syndromeIdx (d : Nat) :
    (interiorFaces d).map Face.syndromeIdx = List.range ((d - 1) * (d - 1)) := by
  unfold interiorFaces
  rw [List.map_flatMap]
  have key : ∀ i, ((List.range (d - 1)).map fun j => interiorFace d i j).map Face.syndromeIdx
      = (List.range (d - 1)).map fun j => 0 + i * (d - 1) + j := by
    intro i
    rw [List.map_map]
    congr 1
    funext j
    show i * (d - 1) + j = 0 + i * (d - 1) + j
    omega
  simp only [key]
  rw [flatMap_range_block (d - 1) 0 (d - 1)]
  simp

/-- Auxiliary: the syndrome positions of the boundary faces are exactly
the d/2 * 4 positions following the interior block, in order. -/
theorem boundaryFaces_syndromeIdx (d : Nat) :
    (boundaryFaces d).map Face.syndromeIdx =
      (List.range (d / 2 * 4)).map ((d - 1) ^ 2 + ·) := by
  unfold boundaryFaces
  rw [List.map_flatMap]
  have key : ∀ i, ([topFace d i, rightFace d i, bottomFace d i, leftFace d i].map
        Face.syndromeIdx)
      = (List.range 4).map fun j => (d - 1) ^ 2 + i * 4 + j := by
    intro i
    have h4 : List.range 4 = [0, 1, 2, 3] := rfl
    rw [h4]
    simp only [List.map_cons, List.map_nil, topFace, rightFace, bottomFace, leftFace]
    generalize (d - 1) ^ 2 = c
    simp only [List.cons.injEq, and_true]
    omega
  simp only [key]
  exact flatMap_range_block 4 ((d - 1) ^ 2) (d / 2)

/-- Auxiliary: all faces of one round consume syndrome positions
0, 1, ..., (d-1)^2 + d/2*4 - 1 in order. -/
theorem stabilizeFaces_syndromeIdx (d : Nat) :
    (stabilizeFaces d).map Face.syndromeIdx =
      List.range ((d - 1) ^ 2 + d / 2 * 4) := by
  unfold stabilizeFaces
  rw [List.map_append, interiorFaces_syndromeIdx, boundaryFaces_syndromeIdx,
    List.range_add, pow_two]

/-- Auxiliary: for odd d, the face count (d-1)^2 + 4*(d/2) equals d^2-1. -/
theorem face_count_arith (d : Nat) (hodd : Odd d) :
    (d - 1) ^ 2 + d / 2 * 4 = d ^ 2 - 1 := by
  obtain ⟨k, hk⟩ := hodd
  subst hk
  have e1 : 2 * k + 1 - 1 = 2 * k := by omega
  have e2 : (2 * k + 1) / 2 = k := by omega
  rw [e1, e2]
  have e3 : (2 * k + 1) ^ 2 = 4 * (k * k) + 4 * k + 1 := by ring
  have e4 : (2 * k) ^ 2 = 4 * (k * k) := by ring
  rw [e3, e4]
  generalize k * k = m
  omega

/-- C3: for odd d, one stabilization round enumerates (d-1)^2 interior
faces and 4*(d/2) boundary faces, d^2-1 faces in total, and the sequence
of syndrome-register positions they consume is exactly 0, ..., d^2-2: each
of the d^2-1 syndrome qubits is used exactly once per round. -/
theorem stabilize_round_face_counts (d : Nat) (hodd : Odd d) (_h3 : 3 ≤ d) :
    (interiorFaces d).length = (d - 1) ^ 2 ∧
    (boundaryFaces d).length = 4 * (d / 2) ∧
    (stabilizeFaces d).length = d ^ 2 - 1 ∧
    (stabilizeFaces d).map Face.syndromeIdx = List.range (d ^ 2 - 1) := by
  have hmap := stabilizeFaces_syndromeIdx d
  rw [face_count_arith d hodd] at hmap
  refine ⟨?_, ?_, ?_, hmap⟩
  · have hlen := congrArg List.length (interiorFaces_syndromeIdx d)
    simpa [pow_two] using hlen
  · have hlen := congrArg List.length (boundaryFaces_syndromeIdx d)
    simpa [Nat.mul_comm] using hlen
  · have hlen := congrArg List.length hmap
    simpa using hlen

/-- Witness for stabilize_round_face_counts at d = 3: the 8 syndrome
qubits are consumed in order 0..7. -/
theorem stabilize_round_face_counts_witness :
    (stabilizeFaces 3).map Face.syndromeIdx = List.range (3 ^ 2 - 1) :=
  (stabilize_round_face_counts 3 ⟨1, by norm_num⟩ (by norm_num)).2.2.2

/-- C4: every interior face at grid position (i, j) has corners
ul = i*d+j, ur = ul+1, ll = ul+d, lr = ll+1, is Z-type when (i+j) % 2 = 0
and X-type otherwise, and faces adjacent in one coordinate have opposite
types (checkerboard invariant). -/
theorem interior_checkerboard (d i j : Nat) (_hodd : Odd d) (_h3 : 3 ≤ d)
    (hi : i < d - 1) (hj : j < d - 1) :
    interiorFace d i j ∈ interiorFaces d ∧
    (interiorFace d i j).ftype =
      (if (i + j) % 2 = 0 then FaceType.Z else FaceType.X) ∧
    (interiorFace d i j).e0 = some (i * d + j) ∧
    (interiorFace d i j).e1 = some (i * d + j + 1) ∧
    (interiorFace d i j).e2 = some (i * d + j + d) ∧
    (interiorFace d i j).e3 = some (i * d + j + d + 1) ∧
    (i + 1 < d - 1 → (interiorFace d (i + 1) j).ftype ≠ (interiorFace d i j).ftype) ∧
    (j + 1 < d - 1 → (interiorFace d i (j + 1)).ftype ≠ (interiorFace d i j).ftype) := by
  refine ⟨?_, rfl, rfl, rfl, rfl, rfl, ?_, ?_⟩
  · exact List.mem_flatMap.mpr
      ⟨i, List.mem_range.mpr hi, List.mem_map.mpr ⟨j, List.mem_range.mpr hj, rfl⟩⟩
  · intro _
    by_cases hp : (i + j) % 2 = 0
    · have h1 : ¬((i + 1 + j) % 2 = 0) := by omega
      simp [interiorFace, hp, h1]
    · have h1 : (i + 1 + j) % 2 = 0 := by omega
      simp [interiorFace, hp, h1]
  · intro _
    by_cases hp : (i + j) % 2 = 0
    · have h1 : ¬((i + (j + 1)) % 2 = 0) := by omega
      simp [interiorFace, hp, h1]
    · have h1 : (i + (j + 1)) % 2 = 0 := by omega
      simp [interiorFace, hp, h1]

/-- Witness for interior_checkerboard at d = 3, face (0, 0). -/
theorem interior_checkerboard_witness :
    (interiorFace 3 0 0).ftype =
      (if (0 + 0) % 2 = 0 then FaceType.Z else FaceType.X) :=
  (interior_checkerboard 3 0 0 ⟨1, by norm_num⟩ (by norm_num) (by norm_num)
    (by norm_num)).2.1

/-- Auxiliary: countP distributes over flatMap as a sum of block counts. -/
theorem countP_flatMap {α β : Type} (p : β → Bool) (f : α → List β) :
    ∀ l : List α, (l.flatMap f).countP p = (l.map fun a => (f a).countP p).sum
  | [] => rfl
  | a :: l => by
    simp [List.flatMap_cons, List.countP_append, countP_flatMap p f l]

/-- Auxiliary: summing the constant 1 over a list gives its length. -/
theorem sum_map_one {α : Type} : ∀ l : List α, (l.map fun _ => (1 : Nat)).sum = l.length
  | [] => rfl
  | a :: l => by
    simp [sum_map_one l]
    omega

/-- C5: each of the four lattice edges carries exactly d/2 boundary faces
(top and bottom X-type, left and right Z-type), with participant indices
top ll = 2k, lr = ll+1; bottom ur = d^2-1-k, ul = ur-1; left ur = 2kd+d,
lr = ur+d; right ul = 2kd+d-1, ll = ul+d; and each face only fills the
slot pair of its edge, the other pair being absent. -/
theorem boundary_faces_spec (d : Nat) (_hodd : Odd d) (_h3 : 3 ≤ d) :
    (boundaryFaces d).countP onTopEdge = d / 2 ∧
    (boundaryFaces d).countP onRightEdge = d / 2 ∧
    (boundaryFaces d).countP onBottomEdge = d / 2 ∧
    (boundaryFaces d).countP onLeftEdge = d / 2 ∧
    (∀ k, k < d / 2 →
      topFace d k ∈ boundaryFaces d ∧ rightFace d k ∈ boundaryFaces d ∧
      bottomFace d k ∈ boundaryFaces d ∧ leftFace d k ∈ boundaryFaces d) ∧
    (∀ k,
      (topFace d k).ftype = FaceType.X ∧ (topFace d k).e2 = some (2 * k) ∧
      (topFace d k).e3 = some (2 * k + 1) ∧
      (topFace d k).e0 = none ∧ (topFace d k).e1 = none ∧
      (bottomFace d k).ftype = FaceType.X ∧
      (bottomFace d k).e1 = some (d ^ 2 - 1 - k) ∧
      (bottomFace d k).e0 = some (d ^ 2 - 1 - k - 1) ∧
      (bottomFace d k).e2 = none ∧ (bottomFace d k).e3 = none ∧
      (leftFace d k).ftype = FaceType.Z ∧
      (leftFace d k).e1 = some (2 * k * d + d) ∧
      (leftFace d k).e3 = some (2 * k * d + d + d) ∧
      (leftFace d k).e0 = none ∧ (leftFace d k).e2 = none ∧
      (rightFace d k).ftype = FaceType.Z ∧
      (rightFace d k).e0 = some (2 * k * d + d - 1) ∧
      (rightFace d k).e2 = some (2 * k * d + d - 1 + d) ∧
      (rightFace d k).e1 = none ∧ (rightFace d k).e3 = none) := by
  have hcount : ∀ p : Face → Bool,
      (∀ i, ([topFace d i, rightFace d i, bottomFace d i, leftFace d i].countP p) = 1) →
      (boundaryFaces d).countP p = d / 2 := by
    intro p hblock
    unfold boundaryFaces
    rw [countP_flatMap]
    simp only [hblock]
    rw [sum_map_one, List.length_range]
  have hmem : ∀ k, k < d / 2 → ∀ f ∈ [topFace d k, rightFace d k, bottomFace d k,
      leftFace d k], f ∈ boundaryFaces d := by
    intro k hk f hf
    exact List.mem_flatMap.mpr ⟨k, List.mem_range.mpr hk, hf⟩
  refine ⟨hcount _ ?_, hcount _ ?_, hcount _ ?_, hcount _ ?_, ?_, ?_⟩
  · intro i
    simp [List.countP_cons, topFace, rightFace, bottomFace, leftFace, onTopEdge]
  · intro i
    simp [List.countP_cons, topFace, rightFace, bottomFace, leftFace, onRightEdge]
  · intro i
    simp [List.countP_cons, topFace, rightFace, bottomFace, leftFace, onBottomEdge]
  · intro i
    simp [List.countP_cons, topFace, rightFace, bottomFace, leftFace, onLeftEdge]
  · intro k hk
    exact ⟨hmem k hk _ (by simp), hmem k hk _ (by simp), hmem k hk _ (by simp),
      hmem k hk _ (by simp)⟩
  · intro k
    exact ⟨rfl, rfl, rfl, rfl, rfl, rfl, rfl, rfl, rfl, rfl, rfl, rfl, rfl, rfl, rfl,
      rfl, rfl, rfl, rfl, rfl⟩

/-- Witness for boundary_faces_spec at d = 3: the top edge carries exactly
one boundary face. -/
theorem boundary_faces_spec_witness :
    (boundaryFaces 3).countP onTopEdge = 3 / 2 :=
  (boundary_faces_spec 3 ⟨1, by norm_num⟩ (by norm_num)).1

/-- Auxiliary: a stride-2 range is the doubling map over a plain range. -/
theorem range'_step_two : ∀ (n s : Nat),
    List.range' s n 2 = (List.range n).map fun k => s + 2 * k
  | 0, s => by simp
  | n + 1, s => by
    rw [List.range'_succ, range'_step_two n (s + 2), List.range_succ_eq_map,
      List.map_cons, List.map_map]
    have hfun : ((fun k => s + 2 * k) ∘ Nat.succ) = fun k => s + 2 + 2 * k := by
      funext k
      show s + 2 * (k + 1) = s + 2 + 2 * k
      omega
    rw [hfun]
    simp

/-- Auxiliary: zipWith3 over three maps of one list is a map over it. -/
theorem zipWith3_map_same {α β₁ β₂ β₃ γ : Type} (f : β₁ → β₂ → β₃ → γ)
    (g1 : α → β₁) (g2 : α → β₂) (g3 : α → β₃) :
    ∀ l : List α, List.zipWith3 f (l.map g1) (l.map g2) (l.map g3) =
      l.map fun x => f (g1 x) (g2 x) (g3 x)
  | [] => rfl
  | a :: l => by
    simp only [List.map_cons, List.zipWith3, zipWith3_map_same f g1 g2 g3 l]

/-- Auxiliary: summing an if-then-else indicator over a list counts the
elements satisfying the test. -/
theorem sum_map_ite_eq_countP {α : Type} (p : α → Bool) :
    ∀ l : List α, (l.map fun a => if p a = true then (1 : Nat) else 0).sum = l.countP p
  | [] => rfl
  | a :: l => by
    rw [List.map_cons, List.sum_cons, List.countP_cons, sum_map_ite_eq_countP p l]
    cases h : p a <;> simp [h, Nat.add_comm]

/-- Auxiliary: a single-bit mask test is nonzero exactly when testBit is
set. -/
theorem mask_ne_zero_iff (s i : Nat) : (s &&& (1 <<< i) ≠ 0) ↔ s.testBit i = true := by
  rw [Nat.one_shiftLeft, Nat.and_two_pow]
  cases h : s.testBit i <;> simp

/-- Auxiliary: a single-bit mask test is zero exactly when testBit is
clear. -/
theorem mask_eq_zero_iff (s i : Nat) : (s &&& (1 <<< i) = 0) ↔ s.testBit i = false := by
  rw [Nat.one_shiftLeft, Nat.and_two_pow]
  cases h : s.testBit i <;> simp

/-- Auxiliary: a conditional increment of one total equals another total
plus an indicator, when the totals agree and the conditions are
equivalent. -/
theorem sum_ite_ext (S C : Nat) (c₁ c₂ : Prop) [Decidable c₁] [Decidable c₂]
    (hS : S = C) (hc : c₁ ↔ c₂) :
    (if c₁ then S + 1 else S) = C + (if c₂ then 1 else 0) := by
  subst hS
  by_cases h : c₂
  · rw [if_pos (hc.mpr h), if_pos h]
  · rw [if_neg (fun hx => h (hc.mp hx)), if_neg h]
    omega

/-- C1: for every odd d at least 3 and every aggregate syndrome bitmask s,
get_flips returns exactly the count described by the spec: one flip per
even chain position p up to d-3 with bit p set and bits p+d and the
lower-left position clear, plus one extra flip exactly when bit (d-1)^2+1
is set and bit 2d-3 is clear. -/
theorem get_flips_eq_spec (d s : Nat) (hodd : Odd d) (h3 : 3 ≤ d) :
    get_flips d s = flipsFromSpec d s := by
  have hlen : (d - 1 + 1) / 2 = (d - 1) / 2 := by
    obtain ⟨k, hk⟩ := hodd
    omega
  have hidx : ∀ p : Nat,
      (if p ≠ 0 then p + d - 2 else (d - 1) ^ 2 + 3) =
        (if p = 0 then (d - 1) ^ 2 + 3 else p + d - 2) := by
    intro p
    by_cases hp : p = 0 <;> simp [hp]
  have hzero : (fun k : Nat => 0 + 2 * k) = (fun k : Nat => 2 * k) := by
    funext k
    omega
  have hfun : ∀ p : Nat,
      (if s &&& (1 <<< p) ≠ 0 ∧
          ¬(s &&& (1 <<< (if p ≠ 0 then p + d - 2 else (d - 1) ^ 2 + 3)) ≠ 0 ∨
            s &&& (1 <<< (p + d)) ≠ 0) then (1 : Nat) else 0) =
        (if (s.testBit p && !s.testBit (p + d) &&
            !s.testBit (if p = 0 then (d - 1) ^ 2 + 3 else p + d - 2)) = true
          then (1 : Nat) else 0) := by
    intro p
    rw [hidx p]
    simp only [mask_ne_zero_iff]
    by_cases h1 : s.testBit p = true <;>
      by_cases h2 : s.testBit (p + d) = true <;>
      by_cases h3' : s.testBit (if p = 0 then (d - 1) ^ 2 + 3 else p + d - 2) = true <;>
      simp [h1, h2, h3']
  simp only [get_flips, flipsFromSpec, hlen, range'_step_two, hzero,
    List.map_map, Function.comp, zipWith3_map_same]
  apply sum_ite_ext
  · rw [List.countP_map, ← sum_map_ite_eq_countP]
    congr 1
    apply List.map_congr_left
    intro k _
    exact hfun (2 * k)
  · constructor
    · intro hc
      exact ⟨(mask_ne_zero_iff s _).mp hc.1, (mask_eq_zero_iff s _).mp hc.2⟩
    · intro hc
      exact ⟨(mask_ne_zero_iff s _).mpr hc.1, (mask_eq_zero_iff s _).mpr hc.2⟩

/-- Witness for get_flips_eq_spec at d = 3, s = 1. -/
theorem get_flips_eq_spec_witness : get_flips 3 1 = flipsFromSpec 3 1 :=
  get_flips_eq_spec 3 1 ⟨1, by norm_num⟩ (by norm_num)

/-- Auxiliary: mapM in the Except monad succeeds pointwise. -/
theorem mapM_ok {α β : Type} (f : α → Except String β) (g : α → β) :
    ∀ l : List α, (∀ a ∈ l, f a = Except.ok (g a)) → l.mapM f = Except.ok (l.map g)
  | [], _ => rfl
  | a :: l, h => by
    rw [List.mapM_cons, h a (List.mem_cons_self a l),
      mapM_ok f g l fun x hx => h x (List.mem_cons_of_mem a hx)]
    rfl

/-- Auxiliary: in-range Python indexing returns the element. -/
theorem pyGet_lt (l : List Nat) (i : Nat) (h : i < l.length) :
    pyGet l i = Except.ok (l.getD i 0) := by
  unfold pyGet
  rw [List.getElem?_eq_getElem h]
  simp [List.getD_eq_getElem?_getD, List.getElem?_eq_getElem h]

/-- Auxiliary: Python result[-1] on a nonempty list is its last element. -/
theorem pyLast_ne (l : List Nat) (h : l ≠ []) :
    pyLast l = Except.ok (l.getLastD 0) := by
  unfold pyLast
  rw [List.getLast?_eq_getLast l h]
  simp [List.getLastD_eq_getLast?, List.getLast?_eq_getLast l h]

/-- Auxiliary: the round-difference list of the decoder, written with
explicit indices, is the zipWith of the list with its own tail. -/
theorem map_range_getD_eq_zipWith : ∀ l : List Nat,
    (List.range (l.length - 1)).map (fun i => l.getD i 0 ^^^ l.getD (i + 1) 0) =
      List.zipWith (fun x y => x ^^^ y) l l.tail
  | [] => rfl
  | [_] => rfl
  | a :: b :: t => by
    show (List.range (t.length + 1)).map
        (fun i => (a :: b :: t).getD i 0 ^^^ (a :: b :: t).getD (i + 1) 0) =
      List.zipWith (fun x y => x ^^^ y) (a :: b :: t) (b :: t)
    rw [List.range_succ_eq_map, List.map_cons, List.map_map, List.zipWith_cons_cons]
    congr 1
    exact map_range_getD_eq_zipWith (b :: t)

/-- Auxiliary: xor cancellation used by the telescoping argument. -/
theorem xor_rearrange (x y z w : Nat) :
    (x ^^^ (y ^^^ z)) ^^^ (z ^^^ w) = x ^^^ (y ^^^ w) := by
  rw [Nat.xor_assoc, Nat.xor_assoc y z, ← Nat.xor_assoc z z, Nat.xor_self, Nat.zero_xor]

/-- Auxiliary: folding xor over the pairwise differences of a list
telescopes to first xor last. -/
theorem foldl_xor_zip : ∀ (t : List Nat) (a acc : Nat),
    (List.zipWith (fun x y => x ^^^ y) (a :: t) t).foldl (fun x y => x ^^^ y) acc =
      acc ^^^ (a ^^^ (a :: t).getD t.length 0)
  | [], a, acc => by simp
  | b :: t, a, acc => by
    rw [List.zipWith_cons_cons, List.foldl_cons, foldl_xor_zip t b _]
    exact xor_rearrange acc a b ((b :: t).getD t.length 0)

/-- Auxiliary: the pairwise-difference list is one shorter than the list. -/
theorem length_zipWith_self_tail {α γ : Type} (f : α → α → γ) :
    ∀ l : List α, (List.zipWith f l l.tail).length = l.length - 1
  | [] => rfl
  | [_] => rfl
  | a :: b :: t => by
    have IH := length_zipWith_self_tail f (b :: t)
    simp only [List.tail_cons, List.zipWith_cons_cons, List.length_cons] at IH ⊢
    omega

/-- Auxiliary: getD commutes with take for in-range indices. -/
theorem getD_take_eq (l : List Nat) (n i : Nat) (h : i < n) :
    (l.take n).getD i 0 = l.getD i 0 := by
  simp [List.getD_eq_getElem?_getD, List.getElem?_take_of_lt h]

/-- Auxiliary: summing a zero indicator gives zero. -/
theorem sum_map_zero {α : Type} : ∀ l : List α, (l.map fun _ => (0 : Nat)).sum = 0
  | [] => rfl
  | _ :: l => by simp [sum_map_zero l]

/-- Auxiliary: the decoder maps the all-clear aggregate syndrome to zero
flips. -/
theorem get_flips_zero (d : Nat) : get_flips d 0 = 0 := by
  simp only [get_flips, Nat.zero_and, List.map_map, Function.comp, zipWith3_map_same]
  simp [sum_map_zero]

/-- Auxiliary: evaluation of the decode step when the result vector has at
least the accessed registers: no shape validation happens, the consecutive
registers are XORed, folded, decoded and added to the last entry. -/
theorem measure_z_decode_eval (d n : Nat) (result : List Nat)
    (h : n ≤ result.length) (hne : result ≠ []) :
    measure_z_decode d n result =
      Except.ok ((get_flips d
        (((List.range (n - 1)).map fun i => result.getD i 0 ^^^ result.getD (i + 1) 0).foldl
          (fun x y => x ^^^ y) 0) + result.getLastD 0) % 2) := by
  have hsyn : ((List.range (n - 1)).mapM fun i =>
      (do
        let a ← pyGet result i
        let b ← pyGet result (i + 1)
        pure (a ^^^ b) : Except String Nat)) =
      Except.ok ((List.range (n - 1)).map fun i =>
        result.getD i 0 ^^^ result.getD (i + 1) 0) := by
    apply mapM_ok
    intro i hi
    have hmem := List.mem_range.mp hi
    have hi1 : i + 1 < result.length := by omega
    have hi0 : i < result.length := by omega
    rw [pyGet_lt result i hi0, pyGet_lt result (i + 1) hi1]
    rfl
  unfold measure_z_decode
  rw [hsyn, pyLast_ne result hne]
  rfl

/-- Auxiliary: the decode step under the shape actually produced by one
run (n syndrome registers followed by the ancilla register). -/
theorem measure_z_decode_take (d n : Nat) (result : List Nat)
    (h : result.length = n + 1) :
    measure_z_decode d n result =
      Except.ok ((get_flips d
        ((List.zipWith (fun x y => x ^^^ y) (result.take n) (result.take n).tail).foldl
          (fun x y => x ^^^ y) 0) + result.getD n 0) % 2) := by
  have hne : result ≠ [] := by
    intro hnil
    rw [hnil] at h
    simp at h
  rw [measure_z_decode_eval d n result (by omega) hne]
  have hlast : result.getLastD 0 = result.getD n 0 := by
    rw [List.getLastD_eq_getLast?, List.getLast?_eq_getElem?, List.getD_eq_getElem?_getD, h]
    simp
  have hlen : (result.take n).length = n := by
    rw [List.length_take, h]
    omega
  have htake : (List.range (n - 1)).map
        (fun i => result.getD i 0 ^^^ result.getD (i + 1) 0) =
      List.zipWith (fun x y => x ^^^ y) (result.take n) (result.take n).tail := by
    rw [← map_range_getD_eq_zipWith (result.take n), hlen]
    apply List.map_congr_left
    intro i hi
    have hmem := List.mem_range.mp hi
    rw [getD_take_eq result n i (by omega), getD_take_eq result n (i + 1) (by omega)]
  rw [hlast, htake]

/-- C2: the final decode step XORs the syndrome registers of every pair of
consecutive rounds (RoundCounter - 1 pairs), folds the differences with
XOR into one aggregate bitmask, decodes it with get_flips, adds the final
ancilla readout bit, and returns the total modulo 2. -/
theorem measure_z_decode_spec (d n : Nat) (result : List Nat)
    (h : result.length = n + 1) :
    (List.zipWith (fun x y => x ^^^ y) (result.take n) (result.take n).tail).length =
      n - 1 ∧
    measure_z_decode d n result =
      Except.ok ((get_flips d
        ((List.zipWith (fun x y => x ^^^ y) (result.take n) (result.take n).tail).foldl
          (fun x y => x ^^^ y) 0) + result.getD n 0) % 2) := by
  refine ⟨?_, measure_z_decode_take d n result h⟩
  rw [length_zipWith_self_tail, List.length_take, h]
  omega

/-- Witness for measure_z_decode_spec at d = 3, two rounds. -/
theorem measure_z_decode_spec_witness :
    measure_z_decode 3 2 [1, 2, 5] =
      Except.ok ((get_flips 3
        ((List.zipWith (fun x y => x ^^^ y) ([1, 2, 5].take 2) ([1, 2, 5].take 2).tail).foldl
          (fun x y => x ^^^ y) 0) + [1, 2, 5].getD 2 0) % 2) :=
  (measure_z_decode_spec 3 2 [1, 2, 5] (by rfl)).2

/-- C9: the folded pairwise XOR telescopes, so the decoded logical bit
depends only on the first round register, the last round register and the
final ancilla readout bit (aggregate 0 when n = 1, since the two
registers coincide). -/
theorem measure_z_first_last (d n : Nat) (result : List Nat)
    (h : result.length = n + 1) (hn : 1 ≤ n) :
    measure_z_decode d n result =
      Except.ok ((get_flips d (result.getD 0 0 ^^^ result.getD (n - 1) 0) +
        result.getD n 0) % 2) := by
  rw [measure_z_decode_take d n result h]
  have hlen : (result.take n).length = n := by
    rw [List.length_take, h]
    omega
  obtain ⟨a, t, hat⟩ : ∃ a t, result.take n = a :: t := by
    cases hc : result.take n with
    | nil =>
      rw [hc] at hlen
      simp at hlen
      omega
    | cons a t => exact ⟨a, t, rfl⟩
  rw [hat]
  simp only [List.tail_cons]
  rw [foldl_xor_zip t a 0, Nat.zero_xor]
  have h0 : a = result.getD 0 0 := by
    have h' := getD_take_eq result n 0 (by omega)
    rw [hat] at h'
    simpa using h'
  have hlt : t.length = n - 1 := by
    have hcl := congrArg List.length hat
    rw [hlen] at hcl
    simp at hcl
    omega
  have hn1 : (a :: t).getD t.length 0 = result.getD (n - 1) 0 := by
    have h' := getD_take_eq result n (n - 1) (by omega)
    rw [hat] at h'
    rw [hlt]
    exact h'
  rw [hn1, h0]

/-- Witness for measure_z_first_last at d = 3, two rounds. -/
theorem measure_z_first_last_witness :
    measure_z_decode 3 2 [1, 2, 5] =
      Except.ok ((get_flips 3 ([1, 2, 5].getD 0 0 ^^^ [1, 2, 5].getD (2 - 1) 0) +
        [1, 2, 5].getD 2 0) % 2) :=
  measure_z_first_last 3 2 [1, 2, 5] (by rfl) (by decide)

/-- C7 counterexample: a measurement outcome vector with three registers
against RoundCounter = 1 (expected register count 2) is decoded without
any error: the decode step performs no shape validation at all. -/
theorem measure_z_accepts_extra_registers :
    measure_z_decode 3 1 [0, 0, 0] = Except.ok 0 ∧
    ([0, 0, 0] : List Nat).length ≠ 1 + 1 := by
  constructor
  · rfl
  · decide

/-- C7 (amended): the decode step performs no shape or width validation
and never raises a ShapeMismatch: whenever the result vector is nonempty
and has at least RoundCounter registers it succeeds; calling decode before
any round (RoundCounter = 0) returns flip count 0, i.e. the ancilla bit
modulo 2. -/
theorem measure_z_decode_no_validation (d n : Nat) (result : List Nat)
    (h : n ≤ result.length) (hne : result ≠ []) :
    (∃ v, measure_z_decode d n result = Except.ok v) ∧
    (n = 0 → measure_z_decode d n result = Except.ok (result.getLastD 0 % 2)) ∧
    get_flips d 0 = 0 := by
  refine ⟨⟨_, measure_z_decode_eval d n result h hne⟩, ?_, get_flips_zero d⟩
  intro hn0
  subst hn0
  rw [measure_z_decode_eval d 0 result h hne]
  simp [get_flips_zero]

/-- Witness for measure_z_decode_no_validation: decode before any round on
a single ancilla register returns that bit modulo 2. -/
theorem measure_z_decode_no_validation_witness :
    measure_z_decode 3 0 [1] = Except.ok (([1] : List Nat).getLastD 0 % 2) :=
  (measure_z_decode_no_validation 3 0 [1] (by decide) (by decide)).2.1 rfl

end Surface
